import Mathlib

/-!
# openDSME timer multiplexer: a shallow embedding

Embedding of `src/dsmeLayer/TimerMultiplexer.h`, instantiated as in
`src/dsmeLayer/DSMEEventDispatcher.h` with the four `EventTimers`.

* `uint32_t` values are natural numbers below `2^32`; arithmetic on them is
  written with an explicit `% 4294967296`.
* `int32_t` values are integers in `[-2^31, 2^31)`; a conversion from
  `uint32_t` is the two's-complement reinterpretation `castI32`, and the result
  of a signed subtraction is brought back into range with `wrapI32`.
* `DSME_ASSERT(false)` aborts: the operations report it instead of continuing.
* The clock `NOW` is read several times by the code; every read is an explicit
  argument.
* Handler invocations are recorded in a trace of `Call`s; handlers do not
  touch the multiplexer.
* A sequence of calls by the owner of the multiplexer is a list of `Op`s,
  executed by `run` until an assertion ends the program.
* `TPS::slotsForLoad` is declared in `src/dsmeAdaptionLayer/scheduling/TPS.h`
  without a body; `slotsForLoad` below follows its description in the
  specification.
-/

namespace dsme

/-! ## Machine integers -/

/-- Conversion of an integer to `uint32_t` (reduction modulo `2^32`). -/
def castU32 (x : Int) : Nat := (x % 4294967296).toNat

/-- Conversion of a `uint32_t` to `int32_t` (two's-complement reinterpretation). -/
def castI32 (u : Nat) : Int :=
  if u % 4294967296 < 2147483648 then ((u % 4294967296 : Nat) : Int)
  else ((u % 4294967296 : Nat) : Int) - 4294967296

/-- Result of a signed 32-bit operation whose mathematical value is `x`. -/
def wrapI32 (x : Int) : Int := castI32 (castU32 x)

/-- The `uint32_t` sum `a + b`. -/
def add32 (a b : Nat) : Nat := (a + b) % 4294967296

/-- The `uint32_t` difference `a - b`. -/
def sub32 (a b : Nat) : Nat := (a % 4294967296 + (4294967296 - b % 4294967296)) % 4294967296

/-- The `int32_t` difference `a - b`. -/
def subI32 (a b : Int) : Int := wrapI32 (a - b)

/-! ## EventTimers (DSMEEventDispatcher.h) -/

/-- The enumerator `TIMER_COUNT`, always the last element of `EventTimers`. -/
abbrev TIMER_COUNT : Nat := 4

/-- Enumerator `NEXT_PRE_SLOT`. -/
def NEXT_PRE_SLOT : Fin TIMER_COUNT := 0
/-- Enumerator `NEXT_SLOT`. -/
def NEXT_SLOT : Fin TIMER_COUNT := 1
/-- Enumerator `CSMA_TIMER`. -/
def CSMA_TIMER : Fin TIMER_COUNT := 2
/-- Enumerator `ACK_TIMER`. -/
def ACK_TIMER : Fin TIMER_COUNT := 3

/-- The index values visited by `for (uint8_t i = 0; i < TIMER_COUNT; ++i)`. -/
def timerIds : List (Fin TIMER_COUNT) := List.finRange TIMER_COUNT

/-! ## TimerMultiplexer (TimerMultiplexer.h) -/

/-- The data members of `TimerMultiplexer`; a null `handler_t` is `none`. -/
structure TimerMultiplexer (H : Type) where
  lastSymCnt : Nat
  syms_until : Fin TIMER_COUNT → Int
  handlers : Fin TIMER_COUNT → Option H

/-- One invocation `(instance->*(handlers[i]))(lateness)`. -/
structure Call (H : Type) where
  timer : Fin TIMER_COUNT
  handler : H
  lateness : Int
deriving DecidableEq

/-- The constructor: every timer inactive, no handler bound. The member
`lastSymCnt` is not initialised by the constructor; `garbage` is its value. -/
def TimerMultiplexer.construct (H : Type) (garbage : Nat) : TimerMultiplexer H :=
  { lastSymCnt := garbage, syms_until := fun _ => -1, handlers := fun _ => none }

/-- Member `_initialize`, with `now` the value read from `NOW`. -/
def _initialize {H : Type} (s : TimerMultiplexer H) (now : Nat) : TimerMultiplexer H :=
  { s with lastSymCnt := now }

/-- Member `_startTimer<E>`; `none` is the `DSME_ASSERT(false)` of line 81. -/
def _startTimer {H : Type} (s : TimerMultiplexer H) (E : Fin TIMER_COUNT)
    (absoluteTime : Nat) (handler : Option H) : Option (TimerMultiplexer H) :=
  if absoluteTime < s.lastSymCnt then none
  else some { s with
    syms_until := Function.update s.syms_until E (castI32 (sub32 absoluteTime s.lastSymCnt))
    handlers := Function.update s.handlers E handler }

/-- Member `_stopTimer<E>`. -/
def _stopTimer {H : Type} (s : TimerMultiplexer H) (E : Fin TIMER_COUNT) : TimerMultiplexer H :=
  { s with syms_until := Function.update s.syms_until E (-1) }

/-- The search loop of `_scheduleTimer` (lines 98-102), from the running
minimum `symsUntilNextEvent`. -/
def nextEventLoop (syms_until : Fin TIMER_COUNT → Int) :
    List (Fin TIMER_COUNT) → Nat → Nat
  | [], symsUntilNextEvent => symsUntilNextEvent
  | i :: rest, symsUntilNextEvent =>
    if 0 < syms_until i ∧ castU32 (syms_until i) < symsUntilNextEvent then
      nextEventLoop syms_until rest (castU32 (syms_until i))
    else nextEventLoop syms_until rest symsUntilNextEvent

/-- What `_scheduleTimer` does to its environment: the values assigned to
`TIMER`, in order, and whether the final `DSME_ASSERT(false)` was reached. -/
structure ScheduleResult where
  writes : List Nat
  aborted : Bool
deriving DecidableEq

/-- Member `_scheduleTimer`; `currentSymCnt` and `now` are its two reads of `NOW`. -/
def _scheduleTimer {H : Type} (s : TimerMultiplexer H) (currentSymCnt now : Nat) :
    ScheduleResult :=
  let symsUntilNextEvent := nextEventLoop s.syms_until timerIds 4294967295
  let timer := add32 s.lastSymCnt symsUntilNextEvent
  let timer := if timer < add32 currentSymCnt 2 then add32 currentSymCnt 2 else timer
  { writes := [timer], aborted := decide (timer ≤ now) }

/-- The first loop of `dispatchEvents` (lines 128-134): the calls made, and
whether `DSME_ASSERT(handlers[i] != nullptr)` failed (which ends the run). -/
def dispatchLoop {H : Type} (s : TimerMultiplexer H) (symsSinceLastDispatch : Int) :
    List (Fin TIMER_COUNT) → List (Call H) × Bool
  | [] => ([], false)
  | i :: rest =>
    if 0 < s.syms_until i ∧ s.syms_until i ≤ symsSinceLastDispatch then
      match s.handlers i with
      | none => ([], true)
      | some h =>
        let r := dispatchLoop s symsSinceLastDispatch rest
        (⟨i, h, subI32 symsSinceLastDispatch (s.syms_until i)⟩ :: r.1, r.2)
    else dispatchLoop s symsSinceLastDispatch rest

/-- The second loop of `dispatchEvents` (lines 136-140). -/
def ageLoop (symsSinceLastDispatch : Int) :
    List (Fin TIMER_COUNT) → (Fin TIMER_COUNT → Int) → (Fin TIMER_COUNT → Int)
  | [], syms_until => syms_until
  | i :: rest, syms_until =>
    if syms_until i > 0 then
      ageLoop symsSinceLastDispatch rest
        (Function.update syms_until i (subI32 (syms_until i) symsSinceLastDispatch))
    else ageLoop symsSinceLastDispatch rest syms_until

/-- Outcome of a dispatch: the handler calls in order, whether an assertion
aborted the run, and the multiplexer afterwards (unchanged when aborted). -/
structure DispatchResult (H : Type) where
  calls : List (Call H)
  aborted : Bool
  mux : TimerMultiplexer H

/-- Member `dispatchEvents`, with `currentSymCnt` the value read from `NOW`. -/
def dispatchEvents {H : Type} (s : TimerMultiplexer H) (currentSymCnt : Nat) :
    DispatchResult H :=
  let symsSinceLastDispatch := castI32 (sub32 currentSymCnt s.lastSymCnt)
  let r := dispatchLoop s symsSinceLastDispatch timerIds
  if r.2 then { calls := r.1, aborted := true, mux := s }
  else
    { calls := r.1
      aborted := false
      mux := { s with
        syms_until := ageLoop symsSinceLastDispatch timerIds s.syms_until
        lastSymCnt := currentSymCnt } }

/-- Outcome of `_timerInterrupt`: handler calls, values assigned to `TIMER`,
whether an assertion aborted the run, and the multiplexer afterwards. -/
structure InterruptResult (H : Type) where
  calls : List (Call H)
  writes : List Nat
  aborted : Bool
  mux : TimerMultiplexer H

/-- Member `_timerInterrupt`; `c1`, `c2`, `c3` are the three reads of `NOW`
(one in `dispatchEvents`, two in `_scheduleTimer`). -/
def _timerInterrupt {H : Type} (s : TimerMultiplexer H) (c1 c2 c3 : Nat) : InterruptResult H :=
  let d := dispatchEvents s c1
  if d.aborted then { calls := d.calls, writes := [], aborted := true, mux := d.mux }
  else
    let r := _scheduleTimer d.mux c2 c3
    { calls := d.calls, writes := r.writes, aborted := r.aborted, mux := d.mux }

/-- `timerInterrupt()` while the clock stands at `now`. -/
def timerInterrupt {H : Type} (s : TimerMultiplexer H) (now : Nat) : InterruptResult H :=
  _timerInterrupt s now now now

/-- The loop of a caller that starts, in id order, every timer `i` of the
list for which a deadline `D i` is given, with handler `h i`. -/
def startList {H : Type} (D : Fin TIMER_COUNT → Option Nat) (h : Fin TIMER_COUNT → H) :
    List (Fin TIMER_COUNT) → TimerMultiplexer H → Option (TimerMultiplexer H)
  | [], s => some s
  | i :: rest, s =>
    match D i with
    | none => startList D h rest s
    | some d => (_startTimer s i d (some (h i))).bind (startList D h rest)

/-- The constructed multiplexer after `initialize()` at clock value `L` and
`startTimer(i, d, h i)` for every timer `i` with `D i = some d`. -/
def startAll {H : Type} (garbage L : Nat) (D : Fin TIMER_COUNT → Option Nat)
    (h : Fin TIMER_COUNT → H) : Option (TimerMultiplexer H) :=
  startList D h timerIds ( _initialize (TimerMultiplexer.construct H garbage) L)

/-! ## Predicates used in the statements -/

/-- Timer `i` is due at clock value `now`: the guard of line 129. -/
def isDue {H : Type} (s : TimerMultiplexer H) (now : Nat) (i : Fin TIMER_COUNT) : Prop :=
  0 < s.syms_until i ∧ s.syms_until i ≤ castI32 (sub32 now s.lastSymCnt)

instance {H : Type} (s : TimerMultiplexer H) (now : Nat) (i : Fin TIMER_COUNT) :
    Decidable (isDue s now i) := by
  unfold isDue; infer_instance

/-- Every pending timer has a handler bound. -/
def HandlersBound {H : Type} (s : TimerMultiplexer H) : Prop :=
  ∀ i, 0 < s.syms_until i → s.handlers i ≠ none

/-- Every remaining value is an `int32_t`. -/
def InRange {H : Type} (s : TimerMultiplexer H) : Prop :=
  ∀ i, -2147483648 ≤ s.syms_until i ∧ s.syms_until i < 2147483648

/-- The state in which timer `E` is as the constructor left it: never started,
no handler bound. -/
def unstarted {H : Type} (s : TimerMultiplexer H) (E : Fin TIMER_COUNT) : TimerMultiplexer H :=
  { s with
    syms_until := Function.update s.syms_until E (-1)
    handlers := Function.update s.handlers E none }

/-- Two multiplexers that differ at most in the handlers of timers that are
not pending. -/
def Agree {H : Type} (s t : TimerMultiplexer H) : Prop :=
  s.lastSymCnt = t.lastSymCnt ∧ s.syms_until = t.syms_until ∧
    ∀ j, 0 < s.syms_until j → s.handlers j = t.handlers j

/-! ## Sequences of calls on the multiplexer -/

/-- One call of a member of the multiplexer by its owner, with the values
that the call reads from `NOW`: `_initialize`, `_startTimer`, `_stopTimer` or
`_timerInterrupt`. -/
inductive Op (H : Type) where
  | init (now : Nat)
  | start (E : Fin TIMER_COUNT) (absoluteTime : Nat) (handler : Option H)
  | stop (E : Fin TIMER_COUNT)
  | interrupt (c1 c2 c3 : Nat)

/-- The call is a `startTimer` for timer `E`. -/
def Op.startsTimer {H : Type} : Op H → Fin TIMER_COUNT → Bool
  | Op.start E' _ _, E => decide (E' = E)
  | _, _ => false

/-- The call is not a `startTimer` with a null handler. -/
def Op.handlerGiven {H : Type} : Op H → Bool
  | Op.start _ _ none => false
  | _ => true

/-- What a run of calls did: the handler invocations and the values assigned
to `TIMER`, in order, and the multiplexer at the end (`none` once a
`DSME_ASSERT(false)` has ended the program). -/
structure RunResult (H : Type) where
  calls : List (Call H)
  writes : List Nat
  mux : Option (TimerMultiplexer H)

/-- One call on the multiplexer `s`. -/
def step {H : Type} (s : TimerMultiplexer H) : Op H → RunResult H
  | Op.init now => { calls := [], writes := [], mux := some ( _initialize s now) }
  | Op.start E absoluteTime handler =>
    { calls := [], writes := [], mux := _startTimer s E absoluteTime handler }
  | Op.stop E => { calls := [], writes := [], mux := some (_stopTimer s E) }
  | Op.interrupt c1 c2 c3 =>
    let r := _timerInterrupt s c1 c2 c3
    { calls := r.calls, writes := r.writes, mux := if r.aborted then none else some r.mux }

/-- A sequence of calls on the multiplexer `s`, ended early by an assertion. -/
def run {H : Type} (s : TimerMultiplexer H) : List (Op H) → RunResult H
  | [] => { calls := [], writes := [], mux := some s }
  | op :: rest =>
    match (step s op).mux with
    | none => step s op
    | some s' =>
      { calls := (step s op).calls ++ (run s' rest).calls
        writes := (step s op).writes ++ (run s' rest).writes
        mux := (run s' rest).mux }

/-! ## TPS::slotsForLoad (TPS.h) -/

/-- Modelled from the spec: the body of `TPS::slotsForLoad`, of which `TPS.h`
holds only the declaration `virtual float slotsForLoad(float packetsPerMUSU)`.
The spec describes it as a "monotonic non-decreasing mapping from an
offered-load estimate to an integral slot count, saturating at the protocol's
maximum slots per link per superframe and floored at the protocol minimum
(including zero for no load)": the load, a rational in place of the `float`,
is rounded up to an integral count, saturated at `maxSlots` and floored at
`minSlots`, the two protocol constants. -/
def slotsForLoad (minSlots maxSlots : Nat) (packetsPerMUSU : ℚ) : Nat :=
  max minSlots (min maxSlots ⌈packetsPerMUSU⌉.toNat)

/-- A multiplexer given by its three members as plain lists, for concrete examples. -/
def mkMux (last : Nat) (su : List Int) (hs : List (Option Nat)) : TimerMultiplexer Nat :=
  { lastSymCnt := last
    syms_until := fun i => su.getD i.val (-1)
    handlers := fun i => hs.getD i.val none }

/-! ## Concrete multiplexers used at the witnesses and counterexamples -/

/-- Reference point 0, timer 0 pending with one symbol remaining. -/
def muxHalfRange : TimerMultiplexer Nat := mkMux 0 [1, -1, -1, -1] [some 7, none, none, none]

/-- Reference point 100, all four timers pending, deadlines in decreasing id order. -/
def muxAllDue : TimerMultiplexer Nat :=
  mkMux 100 [40, 30, 20, 10] [some 0, some 1, some 2, some 3]

/-- The constructed multiplexer after `initialize()` at clock value `now`. -/
def muxInitializedAt (now : Nat) : TimerMultiplexer Nat :=
  _initialize (TimerMultiplexer.construct Nat 0) now

/-- Deadlines of the scenario of the specification: slot timer at 150, CSMA timer at 120. -/
def scenarioDeadlines : Fin TIMER_COUNT → Option Nat :=
  fun i => if i = NEXT_SLOT then some 150 else if i = CSMA_TIMER then some 120 else none

/-- Reference point 100, CSMA timer pending at 20 symbols, slot timer at 50. -/
def muxScenario : TimerMultiplexer Nat :=
  mkMux 100 [-1, 50, 20, -1] [none, some 1, some 2, none]

/-- A day in the life of the multiplexer: initialise at 100, start the slot
and CSMA timers, stop the CSMA timer, interrupt at 121, restart CSMA, interrupt
at 160. -/
def opsScenario : List (Op Nat) :=
  [Op.init 100, Op.start NEXT_SLOT 150 (some 1), Op.start CSMA_TIMER 120 (some 2),
   Op.stop CSMA_TIMER, Op.interrupt 121 121 121,
   Op.start CSMA_TIMER 155 (some 2), Op.interrupt 160 160 160]

/-! ## The index list and the first dispatch loop -/

theorem timerIds_eq : timerIds = [0, 1, 2, 3] := by decide

theorem timerIds_nodup : timerIds.Nodup := by
  rw [timerIds_eq]; decide

theorem timerIds_sorted : timerIds.Pairwise (fun a b => a < b) := by
  rw [timerIds_eq]; decide

theorem mem_timerIds (i : Fin TIMER_COUNT) : i ∈ timerIds := by
  unfold timerIds; exact List.mem_finRange i

/-- Every recorded call comes from a timer of the list that passed the guard,
carries that timer's handler and the lateness computed on line 130. -/
theorem dispatchLoop_mem {H : Type} (s : TimerMultiplexer H) (e : Int)
    (l : List (Fin TIMER_COUNT)) (c : Call H) (hc : c ∈ (dispatchLoop s e l).1) :
    c.timer ∈ l ∧ 0 < s.syms_until c.timer ∧ s.syms_until c.timer ≤ e ∧
      s.handlers c.timer = some c.handler ∧ c.lateness = subI32 e (s.syms_until c.timer) := by
  induction l with
  | nil => simp [dispatchLoop] at hc
  | cons i rest ih =>
    unfold dispatchLoop at hc
    split at hc
    · next hg =>
      split at hc
      · simp at hc
      · next h hh =>
        simp only [List.mem_cons] at hc
        rcases hc with hc | hc
        · subst hc
          exact ⟨List.mem_cons_self _ _, hg.1, hg.2, hh, rfl⟩
        · obtain ⟨h1, h2⟩ := ih hc
          exact ⟨List.mem_cons_of_mem _ h1, h2⟩
    · obtain ⟨h1, h2⟩ := ih hc
      exact ⟨List.mem_cons_of_mem _ h1, h2⟩

/-- With a handler bound to every pending timer the first loop runs to its
end and calls exactly the timers that pass the guard, in list order. -/
theorem dispatchLoop_bound {H : Type} (s : TimerMultiplexer H) (e : Int)
    (hb : HandlersBound s) (l : List (Fin TIMER_COUNT)) :
    (dispatchLoop s e l).2 = false ∧
      (dispatchLoop s e l).1.map Call.timer
        = l.filter (fun i => decide (0 < s.syms_until i ∧ s.syms_until i ≤ e)) := by
  induction l with
  | nil => simp [dispatchLoop]
  | cons i rest ih =>
    unfold dispatchLoop
    split
    · next hg =>
      split
      · next hn => exact absurd hn (hb i hg.1)
      · next h hh =>
        refine ⟨ih.1, ?_⟩
        simp only [List.map_cons]
        rw [List.filter_cons_of_pos (by simpa using hg), ih.2]
    · next hg =>
      refine ⟨ih.1, ?_⟩
      rw [List.filter_cons_of_neg (by simpa using hg), ih.2]

/-- The first loop reads the remaining values and the handlers only. -/
theorem dispatchLoop_congr {H : Type} (s t : TimerMultiplexer H) (e : Int)
    (h1 : s.syms_until = t.syms_until) (h2 : s.handlers = t.handlers)
    (l : List (Fin TIMER_COUNT)) : dispatchLoop s e l = dispatchLoop t e l := by
  induction l with
  | nil => simp [dispatchLoop]
  | cons i rest ih =>
    unfold dispatchLoop
    rw [ih, h1, h2]

/-! ## dispatchEvents: which handlers run, and in which order -/

theorem dispatchEvents_calls {H : Type} (s : TimerMultiplexer H) (now : Nat) :
    (dispatchEvents s now).calls
      = (dispatchLoop s (castI32 (sub32 now s.lastSymCnt)) timerIds).1 := by
  unfold dispatchEvents
  simp only
  split <;> rfl

theorem dispatchEvents_aborted {H : Type} (s : TimerMultiplexer H) (now : Nat) :
    (dispatchEvents s now).aborted
      = (dispatchLoop s (castI32 (sub32 now s.lastSymCnt)) timerIds).2 := by
  unfold dispatchEvents
  simp only
  split
  · next h => simp [h]
  · next h => simp at h; simp [h]

theorem timerInterrupt_calls {H : Type} (s : TimerMultiplexer H) (c1 c2 c3 : Nat) :
    (_timerInterrupt s c1 c2 c3).calls = (dispatchEvents s c1).calls := by
  unfold _timerInterrupt
  simp only
  split <;> rfl

theorem castI32_of_lt (u : Nat) (h : u < 2147483648) : castI32 u = (u : Int) := by
  unfold castI32
  have : u % 4294967296 = u := Nat.mod_eq_of_lt (by omega)
  rw [this, if_pos h]

/-- C1 (amended): in the dispatch phase, with `elapsed = (now - lastSymCnt) mod 2^32`
read as a signed 32-bit number, the handler of timer `i` is invoked if and only if
`0 < syms_until[i] ≤ elapsed`; when the unsigned difference is below `2^31` this is
the comparison with the unsigned difference itself. -/
theorem C1_dispatch_iff_signed {H : Type} (s : TimerMultiplexer H) (now : Nat)
    (i : Fin TIMER_COUNT) (hb : HandlersBound s) :
    (dispatchEvents s now).aborted = false ∧
    ((∃ c ∈ (dispatchEvents s now).calls, c.timer = i) ↔
      (0 < s.syms_until i ∧ s.syms_until i ≤ castI32 (sub32 now s.lastSymCnt))) ∧
    (sub32 now s.lastSymCnt < 2147483648 →
      ((∃ c ∈ (dispatchEvents s now).calls, c.timer = i) ↔
        (0 < s.syms_until i ∧ s.syms_until i ≤ ((sub32 now s.lastSymCnt : Nat) : Int)))) := by
  have hloop := dispatchLoop_bound s (castI32 (sub32 now s.lastSymCnt)) hb timerIds
  have key : (∃ c ∈ (dispatchEvents s now).calls, c.timer = i) ↔
      (0 < s.syms_until i ∧ s.syms_until i ≤ castI32 (sub32 now s.lastSymCnt)) := by
    rw [dispatchEvents_calls]
    constructor
    · rintro ⟨c, hc, rfl⟩
      have := dispatchLoop_mem s _ timerIds c hc
      exact ⟨this.2.1, this.2.2.1⟩
    · intro hg
      have hm : i ∈ (dispatchLoop s (castI32 (sub32 now s.lastSymCnt)) timerIds).1.map
          Call.timer := by
        rw [hloop.2, List.mem_filter]
        exact ⟨mem_timerIds i, by simpa using hg⟩
      obtain ⟨c, hc, hci⟩ := List.mem_map.mp hm
      exact ⟨c, hc, hci⟩
  refine ⟨?_, key, ?_⟩
  · rw [dispatchEvents_aborted]; exact hloop.1
  · intro hlt
    rw [key, castI32_of_lt _ hlt]

/-- Reference point 0, timer 0 with one symbol remaining, dispatch at 5. -/
theorem C1_dispatch_iff_signed_witness :
    HandlersBound muxHalfRange ∧
    ((∃ c ∈ (dispatchEvents muxHalfRange 5).calls, c.timer = 0) ↔
      (0 < muxHalfRange.syms_until 0 ∧
        muxHalfRange.syms_until 0 ≤ castI32 (sub32 5 muxHalfRange.lastSymCnt))) :=
  ⟨by unfold HandlersBound; decide,
   (C1_dispatch_iff_signed muxHalfRange 5 0 (by unfold HandlersBound; decide)).2.1⟩

/-- C1 (as stated, refuted): with `lastSymCnt = 0`, timer 0 pending with one
symbol remaining and the clock at `2^31`, the unsigned difference `2^31` is at
least the remaining value, yet no handler is invoked. -/
theorem C1_counterexample_unsigned_elapsed :
    HandlersBound muxHalfRange ∧
    ¬ ((∃ c ∈ (dispatchEvents muxHalfRange 2147483648).calls, c.timer = 0) ↔
      (0 < muxHalfRange.syms_until 0 ∧
        muxHalfRange.syms_until 0
          ≤ ((sub32 2147483648 muxHalfRange.lastSymCnt : Nat) : Int))) := by
  refine ⟨by unfold HandlersBound; decide, ?_⟩
  decide

/-- C2: a single `timerInterrupt()` runs to the end of its dispatch phase and
invokes the due timers, each exactly once, in strictly increasing timer-id
order: the invoked ids are the due ids among 0, 1, 2, 3 in that order, each
call using the handler bound to its timer. -/
theorem C2_dispatch_once_in_id_order {H : Type} (s : TimerMultiplexer H) (now : Nat)
    (hb : HandlersBound s) :
    (dispatchEvents s now).aborted = false ∧
    (timerInterrupt s now).calls.map Call.timer
      = [NEXT_PRE_SLOT, NEXT_SLOT, CSMA_TIMER, ACK_TIMER].filter
          (fun i => decide (isDue s now i)) ∧
    ((timerInterrupt s now).calls.map Call.timer).Pairwise (fun a b => a < b) ∧
    ((timerInterrupt s now).calls.map Call.timer).Nodup ∧
    (∀ i, isDue s now i → ((timerInterrupt s now).calls.map Call.timer).count i = 1) ∧
    (∀ c ∈ (timerInterrupt s now).calls, s.handlers c.timer = some c.handler) := by
  have hloop := dispatchLoop_bound s (castI32 (sub32 now s.lastSymCnt)) hb timerIds
  have hids : (timerInterrupt s now).calls.map Call.timer
      = timerIds.filter (fun i => decide (isDue s now i)) := by
    unfold timerInterrupt
    rw [timerInterrupt_calls, dispatchEvents_calls, hloop.2]
    rfl
  have hnd : ((timerInterrupt s now).calls.map Call.timer).Nodup := by
    rw [hids]; exact timerIds_nodup.filter _
  refine ⟨?_, ?_, ?_, hnd, ?_, ?_⟩
  · rw [dispatchEvents_aborted]; exact hloop.1
  · rw [hids, timerIds_eq]; rfl
  · rw [hids]; exact timerIds_sorted.filter _
  · intro i hi
    apply List.count_eq_one_of_mem hnd
    rw [hids, List.mem_filter]
    exact ⟨mem_timerIds i, by simpa using hi⟩
  · intro c hc
    unfold timerInterrupt at hc
    rw [timerInterrupt_calls, dispatchEvents_calls] at hc
    exact (dispatchLoop_mem s _ timerIds c hc).2.2.2.1

/-- All four timers due at 150, with deadlines in decreasing id order. -/
theorem C2_dispatch_once_in_id_order_witness :
    HandlersBound muxAllDue ∧
    (timerInterrupt muxAllDue 150).calls.map Call.timer
      = [NEXT_PRE_SLOT, NEXT_SLOT, CSMA_TIMER, ACK_TIMER].filter
          (fun i => decide (isDue muxAllDue 150 i)) :=
  ⟨by unfold HandlersBound; decide,
   (C2_dispatch_once_in_id_order muxAllDue 150 (by unfold HandlersBound; decide)).2.1⟩

/-! ## startTimer -/

theorem startTimer_accept {H : Type} (s : TimerMultiplexer H) (E : Fin TIMER_COUNT)
    (D : Nat) (h : Option H) (hacc : ¬ D < s.lastSymCnt) :
    _startTimer s E D h = some { s with
      syms_until := Function.update s.syms_until E (castI32 (sub32 D s.lastSymCnt))
      handlers := Function.update s.handlers E h } := by
  unfold _startTimer
  rw [if_neg hacc]

/-- What the guard of `_startTimer` tests: the numeric order of the two counters. -/
theorem startTimer_fatal_iff {H : Type} (s : TimerMultiplexer H) (E : Fin TIMER_COUNT)
    (D : Nat) (h : Option H) : _startTimer s E D h = none ↔ D < s.lastSymCnt := by
  unfold _startTimer
  split <;> simp [*]

theorem sub32_of_le (a b : Nat) (hb : b ≤ a) (ha : a < 4294967296) : sub32 a b = a - b := by
  unfold sub32
  omega

theorem wrapI32_zero : wrapI32 0 = 0 := by decide

theorem subI32_self (a : Int) : subI32 a a = 0 := by
  unfold subI32
  rw [sub_self]
  exact wrapI32_zero

/-- In a list whose images under `f` are pairwise distinct, the elements
with the image of a member `c` are `c` alone. -/
theorem filter_eq_singleton_of_nodup_map {α β : Type} [DecidableEq β] (f : α → β)
    (l : List α) (hnd : (l.map f).Nodup) (c : α) (hc : c ∈ l) :
    l.filter (fun x => decide (f x = f c)) = [c] := by
  induction l with
  | nil => simp at hc
  | cons a t ih =>
    rw [List.map_cons, List.nodup_cons] at hnd
    rcases List.mem_cons.mp hc with hca | hct
    · subst hca
      rw [List.filter_cons_of_pos (by simp)]
      congr 1
      rw [List.filter_eq_nil_iff]
      intro x hx hfx
      exact hnd.1 (List.mem_map.mpr ⟨x, hx, by simpa using hfx⟩)
    · have hne : f a ≠ f c := fun hEq => hnd.1 (hEq ▸ List.mem_map_of_mem f hct)
      rw [List.filter_cons_of_neg (by simpa using hne)]
      exact ih hnd.2 hct

/-- C3 (amended): for every deadline `D` strictly after the reference point and
less than `2^31` symbols ahead of it, `startTimer(E, D, h)` is accepted and a
`timerInterrupt()` at `now == D` invokes `h` for timer `E` exactly once, with
lateness 0. -/
theorem C3_fires_once_at_deadline {H : Type} (s : TimerMultiplexer H) (E : Fin TIMER_COUNT)
    (D : Nat) (h : H) (hb : HandlersBound s) (h1 : s.lastSymCnt < D) (h2 : D < 4294967296)
    (h3 : D - s.lastSymCnt < 2147483648) :
    ∃ s', _startTimer s E D (some h) = some s' ∧
      (dispatchEvents s' D).aborted = false ∧
      (timerInterrupt s' D).calls.filter (fun c => decide (c.timer = E)) = [⟨E, h, 0⟩] := by
  refine ⟨_, startTimer_accept s E D (some h) (by omega), ?_⟩
  set s' : TimerMultiplexer H := { s with
      syms_until := Function.update s.syms_until E (castI32 (sub32 D s.lastSymCnt))
      handlers := Function.update s.handlers E (some h) } with hs'
  have hsu : s'.syms_until E = castI32 (sub32 D s'.lastSymCnt) := by simp [hs']
  have hpos : 0 < castI32 (sub32 D s'.lastSymCnt) := by
    have : s'.lastSymCnt = s.lastSymCnt := rfl
    rw [this, sub32_of_le D s.lastSymCnt (by omega) h2, castI32_of_lt _ h3]
    omega
  have hb' : HandlersBound s' := by
    intro i hi
    by_cases hiE : i = E
    · subst hiE; simp [hs']
    · have e1 : s'.syms_until i = s.syms_until i := by simp [hs', Function.update_noteq hiE]
      have e2 : s'.handlers i = s.handlers i := by simp [hs', Function.update_noteq hiE]
      rw [e2]; rw [e1] at hi; exact hb i hi
  have hloop := dispatchLoop_bound s' (castI32 (sub32 D s'.lastSymCnt)) hb' timerIds
  have hcalls : (timerInterrupt s' D).calls
      = (dispatchLoop s' (castI32 (sub32 D s'.lastSymCnt)) timerIds).1 := by
    unfold timerInterrupt
    rw [timerInterrupt_calls, dispatchEvents_calls]
  refine ⟨by rw [dispatchEvents_aborted]; exact hloop.1, ?_⟩
  rw [hcalls]
  have hmem : E ∈ (dispatchLoop s' (castI32 (sub32 D s'.lastSymCnt)) timerIds).1.map
      Call.timer := by
    have hdue : 0 < s'.syms_until E ∧
        s'.syms_until E ≤ castI32 (sub32 D s'.lastSymCnt) := by
      rw [hsu]; exact ⟨hpos, le_refl _⟩
    rw [hloop.2, List.mem_filter]
    exact ⟨mem_timerIds E, decide_eq_true hdue⟩
  obtain ⟨c, hc, hcE⟩ := List.mem_map.mp hmem
  have hc' := dispatchLoop_mem s' _ timerIds c hc
  have hnd : ((dispatchLoop s' (castI32 (sub32 D s'.lastSymCnt)) timerIds).1.map
      Call.timer).Nodup := by
    rw [hloop.2]; exact timerIds_nodup.filter _
  have hfil := filter_eq_singleton_of_nodup_map Call.timer _ hnd c hc
  rw [hcE] at hfil
  rw [hfil]
  have hh : c.handler = h := by
    have := hc'.2.2.2.1
    rw [hcE] at this
    simp [hs'] at this
    exact this.symm
  have hl : c.lateness = 0 := by
    rw [hc'.2.2.2.2, hcE, hsu, subI32_self]
  cases c
  simp_all

/-- Reference point 100, CSMA timer started for 120, interrupt at 120. -/
theorem C3_fires_once_at_deadline_witness :
    ∃ s', _startTimer (muxInitializedAt 100) CSMA_TIMER 120 (some 9) = some s' ∧
      (dispatchEvents s' 120).aborted = false ∧
      (timerInterrupt s' 120).calls.filter (fun c => decide (c.timer = CSMA_TIMER))
        = [⟨CSMA_TIMER, 9, 0⟩] :=
  C3_fires_once_at_deadline (muxInitializedAt 100) CSMA_TIMER 120 9
    (by unfold HandlersBound; decide) (by decide) (by decide) (by decide)

/-- C3 (as stated, refuted): with the reference point at 100, `startTimer(CSMA_TIMER, 100, h)`
is accepted, and the `timerInterrupt()` at `now == 100` invokes no handler at all. -/
theorem C3_counterexample_deadline_at_reference :
    (_startTimer (muxInitializedAt 100) CSMA_TIMER 100 (some 9)).isSome = true ∧
    (_startTimer (muxInitializedAt 100) CSMA_TIMER 100 (some 9)).map
      (fun s' => (timerInterrupt s' 100).calls) = some [] := by
  decide

/-- C4 (code at the failing input): with `lastSymCnt = 4294967286` the deadline 5
lies 15 symbols ahead of the reference point under modular comparison, yet
`startTimer` takes the fatal path; and with `lastSymCnt = 0` the deadline `2^31`
is behind the reference point under modular comparison, yet is accepted. -/
theorem C4_post_wrap_deadline_is_fatal :
    castI32 (sub32 5 (muxInitializedAt 4294967286).lastSymCnt) = 15 ∧
    (_startTimer (muxInitializedAt 4294967286) CSMA_TIMER 5 (some 9)).isSome = false ∧
    castI32 (sub32 2147483648 (muxInitializedAt 0).lastSymCnt) = -2147483648 ∧
    (_startTimer (muxInitializedAt 0) CSMA_TIMER 2147483648 (some 9)).isSome = true := by
  decide

/-- C5 (code at the failing input): after `initialize()` at 4294967000 and
`startTimer(NEXT_SLOT, 4294967294, h)`, the `timerInterrupt()` at `now = 4294967294`
fires the slot timer on time, then writes 4294967293 to the compare register,
which is not greater than `now`, and reaches the final `DSME_ASSERT(false)`; so
does the interrupt of an idle multiplexer at that clock value, and so does
`_scheduleTimer` with a timer pending five symbols ahead, across the wrap. -/
theorem C5_assertion_fails_before_wrap :
    (_startTimer (muxInitializedAt 4294967000) NEXT_SLOT 4294967294 (some 9)).map
      (fun s' => ((timerInterrupt s' 4294967294).calls, (timerInterrupt s' 4294967294).writes,
        (timerInterrupt s' 4294967294).aborted))
      = some ([⟨NEXT_SLOT, 9, 0⟩], [4294967293], true) ∧
    (timerInterrupt (muxInitializedAt 4294967294) 4294967294).writes = [4294967293] ∧
    (timerInterrupt (muxInitializedAt 4294967294) 4294967294).aborted = true ∧
    _scheduleTimer (mkMux 4294967294 [5, -1, -1, -1] [some 9, none, none, none])
      4294967294 4294967294 = { writes := [3], aborted := true } := by
  decide

/-- C6 (code at the failing input): with no timer active, `timerInterrupt()` at
`now = 100` writes `now + 2 = 102` to the compare register, not the sentinel
`lastSymCnt + 0xFFFFFFFF mod 2^32`, which is 99 after the dispatch phase. -/
theorem C6_idle_reschedule_is_clamped :
    (timerInterrupt (muxInitializedAt 100) 100).writes = [102] ∧
    (_scheduleTimer (muxInitializedAt 100) 100 100).writes = [102] ∧
    add32 (muxInitializedAt 100).lastSymCnt 4294967295 = 99 := by
  decide

/-! ## _scheduleTimer -/

theorem castU32_of_range (x : Int) (h0 : 0 ≤ x) (h1 : x < 4294967296) :
    ((castU32 x : Nat) : Int) = x := by
  unfold castU32
  omega

/-- The search loop returns a lower bound of the running minimum and of every
positive remaining value it visits, and the value it returns is one of them. -/
theorem nextEventLoop_spec (su : Fin TIMER_COUNT → Int)
    (hr : ∀ i, su i < 2147483648) (l : List (Fin TIMER_COUNT)) (acc : Nat) :
    nextEventLoop su l acc ≤ acc ∧
    (∀ i ∈ l, 0 < su i → ((nextEventLoop su l acc : Nat) : Int) ≤ su i) ∧
    (nextEventLoop su l acc = acc ∨
      ∃ i ∈ l, 0 < su i ∧ ((nextEventLoop su l acc : Nat) : Int) = su i) := by
  induction l generalizing acc with
  | nil => simp [nextEventLoop]
  | cons a t ih =>
    unfold nextEventLoop
    split
    · next hg =>
      have hca := castU32_of_range (su a) (le_of_lt hg.1) (by have := hr a; omega)
      obtain ⟨i1, i2, i3⟩ := ih (castU32 (su a))
      refine ⟨by omega, ?_, ?_⟩
      · intro i hi hpos
        rcases List.mem_cons.mp hi with rfl | hit
        · omega
        · exact i2 i hit hpos
      · right
        rcases i3 with heq | ⟨i, hi, hpos, heq⟩
        · exact ⟨a, List.mem_cons_self _ _, hg.1, by rw [heq]; exact hca⟩
        · exact ⟨i, List.mem_cons_of_mem _ hi, hpos, heq⟩
    · next hg =>
      obtain ⟨i1, i2, i3⟩ := ih acc
      refine ⟨i1, ?_, ?_⟩
      · intro i hi hpos
        rcases List.mem_cons.mp hi with rfl | hit
        · have hca := castU32_of_range (su i) (le_of_lt hpos) (by have := hr i; omega)
          have : ¬ castU32 (su i) < acc := fun hlt => hg ⟨hpos, hlt⟩
          omega
        · exact i2 i hit hpos
      · rcases i3 with heq | ⟨i, hi, hpos, heq⟩
        · exact Or.inl heq
        · exact Or.inr ⟨i, List.mem_cons_of_mem _ hi, hpos, heq⟩

/-- With a pending timer, the search loop of `_scheduleTimer` returns the
minimum `m` of the positive remaining values. -/
theorem nextEventLoop_min (su : Fin TIMER_COUNT → Int) (hr : ∀ i, su i < 2147483648)
    (m : Nat) (hpos : 0 < m) (hm : ∃ i, su i = (m : Int))
    (hmin : ∀ j, 0 < su j → (m : Int) ≤ su j) :
    nextEventLoop su timerIds 4294967295 = m := by
  obtain ⟨k, hk⟩ := hm
  obtain ⟨_, h2, h3⟩ := nextEventLoop_spec su hr timerIds 4294967295
  have hle := h2 k (mem_timerIds k) (by omega)
  have hkr := hr k
  rcases h3 with heq | ⟨i, _, hipos, heq⟩
  · omega
  · have := hmin i hipos
    omega

/-- The reschedule phase when a timer is pending and neither sum wraps: one
write, of the larger of `lastSymCnt + m` and `currentSymCnt + 2`. -/
theorem scheduleTimer_of_min {H : Type} (s : TimerMultiplexer H) (cur now m : Nat)
    (hr : ∀ i, s.syms_until i < 2147483648) (hpos : 0 < m)
    (hm : ∃ i, s.syms_until i = (m : Int))
    (hmin : ∀ j, 0 < s.syms_until j → (m : Int) ≤ s.syms_until j)
    (h1 : s.lastSymCnt + m ≤ 4294967295) (h2 : cur + 2 ≤ 4294967295) :
    _scheduleTimer s cur now
      = { writes := [max (s.lastSymCnt + m) (cur + 2)],
          aborted := decide (max (s.lastSymCnt + m) (cur + 2) ≤ now) } := by
  unfold _scheduleTimer
  simp only
  rw [nextEventLoop_min s.syms_until hr m hpos hm hmin]
  have e1 : add32 s.lastSymCnt m = s.lastSymCnt + m := by unfold add32; omega
  have e2 : add32 cur 2 = cur + 2 := by unfold add32; omega
  rw [e1, e2]
  have e3 : (if s.lastSymCnt + m < cur + 2 then cur + 2 else s.lastSymCnt + m)
      = max (s.lastSymCnt + m) (cur + 2) := by
    split <;> omega
  rw [e3]

/-- Away from the top of the counter range (`currentSymCnt + 2` does not wrap)
and with the clock standing still, the value written exceeds `now` and the
final assertion of `_scheduleTimer` holds. -/
theorem scheduleTimer_future_of_no_wrap {H : Type} (s : TimerMultiplexer H) (now : Nat)
    (h2 : now + 2 ≤ 4294967295) :
    (_scheduleTimer s now now).aborted = false ∧
      ∀ t ∈ (_scheduleTimer s now now).writes, now < t := by
  unfold _scheduleTimer
  have e2 : add32 now 2 = now + 2 := by unfold add32; omega
  simp only [e2, List.mem_singleton, decide_eq_false_iff_not, forall_eq]
  constructor <;> split <;> omega

/-- With no timer pending the search loop returns the sentinel, and whenever
`lastSymCnt = currentSymCnt` lies in `[1, 2^32 - 3]` the clamp replaces the parked
deadline `lastSymCnt + 0xFFFFFFFF` by `currentSymCnt + 2`. -/
theorem scheduleTimer_idle_clamped {H : Type} (s : TimerMultiplexer H) (now : Nat)
    (hidle : ∀ i, s.syms_until i ≤ 0) (hlast : s.lastSymCnt = now) (h1 : 1 ≤ now)
    (h2 : now + 2 ≤ 4294967295) :
    (_scheduleTimer s now now).writes = [now + 2] := by
  have hloop : nextEventLoop s.syms_until timerIds 4294967295 = 4294967295 := by
    obtain ⟨_, _, h3⟩ := nextEventLoop_spec s.syms_until
      (fun i => by have := hidle i; omega) timerIds 4294967295
    rcases h3 with heq | ⟨i, _, hpos, _⟩
    · exact heq
    · have := hidle i; omega
  unfold _scheduleTimer
  simp only [hloop, hlast]
  have e1 : add32 now 4294967295 = now - 1 := by unfold add32; omega
  have e2 : add32 now 2 = now + 2 := by unfold add32; omega
  rw [e1, e2, if_pos (by omega)]

/-- C7: with at least one pending timer, `m` the minimum of the positive
remaining values, and neither `lastSymCnt + m` nor `now + 2` above `2^32 - 1`,
`_scheduleTimer` writes the compare register exactly once, with the value
`max(lastSymCnt + m, now + 2)`. -/
theorem C7_schedule_writes_clamped_minimum {H : Type} (s : TimerMultiplexer H) (now m : Nat)
    (hr : InRange s) (hpos : 0 < m) (hm : ∃ i, s.syms_until i = (m : Int))
    (hmin : ∀ j, 0 < s.syms_until j → (m : Int) ≤ s.syms_until j)
    (h1 : s.lastSymCnt + m ≤ 4294967295) (h2 : now + 2 ≤ 4294967295) :
    (_scheduleTimer s now now).writes = [max (s.lastSymCnt + m) (now + 2)] := by
  rw [scheduleTimer_of_min s now now m (fun i => (hr i).2) hpos hm hmin h1 h2]

/-- Reference point 100, slot timer at 150 and CSMA timer at 120. -/
theorem C7_schedule_writes_clamped_minimum_witness :
    (_scheduleTimer (mkMux 100 [-1, 50, 20, -1] [none, some 1, some 2, none]) 105 105).writes
      = [max (100 + 20) (105 + 2)] :=
  C7_schedule_writes_clamped_minimum (mkMux 100 [-1, 50, 20, -1] [none, some 1, some 2, none])
    105 20 (by unfold InRange; decide) (by decide) ⟨CSMA_TIMER, by decide⟩
    (by decide) (by decide) (by decide)

/-! ## dispatchEvents under a shift of both counters -/

theorem sub32_shift (now last k : Nat) :
    sub32 ((now + k) % 4294967296) ((last + k) % 4294967296) = sub32 now last := by
  unfold sub32
  omega

theorem dispatchEvents_syms_until {H : Type} (s : TimerMultiplexer H) (now : Nat) :
    (dispatchEvents s now).mux.syms_until
      = if (dispatchLoop s (castI32 (sub32 now s.lastSymCnt)) timerIds).2 then s.syms_until
        else ageLoop (castI32 (sub32 now s.lastSymCnt)) timerIds s.syms_until := by
  unfold dispatchEvents
  simp only
  split <;> rfl

/-- C8: running the dispatch phase with both counters advanced by the same
offset `k` (modulo `2^32`) invokes the same handlers with the same lateness
values and leaves the same remaining values as running it on the original
counters. -/
theorem C8_dispatch_invariant_under_shift {H : Type} (s : TimerMultiplexer H) (now k : Nat) :
    (dispatchEvents { s with lastSymCnt := (s.lastSymCnt + k) % 4294967296 }
        ((now + k) % 4294967296)).calls = (dispatchEvents s now).calls ∧
    (dispatchEvents { s with lastSymCnt := (s.lastSymCnt + k) % 4294967296 }
        ((now + k) % 4294967296)).mux.syms_until = (dispatchEvents s now).mux.syms_until ∧
    (dispatchEvents { s with lastSymCnt := (s.lastSymCnt + k) % 4294967296 }
        ((now + k) % 4294967296)).aborted = (dispatchEvents s now).aborted := by
  have hl : ∀ e, dispatchLoop { s with lastSymCnt := (s.lastSymCnt + k) % 4294967296 } e timerIds
      = dispatchLoop s e timerIds :=
    fun e => dispatchLoop_congr _ s e rfl rfl timerIds
  refine ⟨?_, ?_, ?_⟩
  · rw [dispatchEvents_calls, dispatchEvents_calls, sub32_shift, hl]
  · rw [dispatchEvents_syms_until, dispatchEvents_syms_until, sub32_shift, hl]
  · rw [dispatchEvents_aborted, dispatchEvents_aborted, sub32_shift, hl]

/-! ## timerInterrupt end to end -/

theorem wrapI32_of_range (x : Int) (h0 : -2147483648 ≤ x) (h1 : x < 2147483648) :
    wrapI32 x = x := by
  unfold wrapI32 castI32 castU32
  split <;> omega

/-- The second loop of `dispatchEvents` over distinct indices: every visited
positive remaining value is reduced by the elapsed symbols, nothing else changes. -/
theorem ageLoop_apply (e : Int) (l : List (Fin TIMER_COUNT)) (hnd : l.Nodup)
    (su : Fin TIMER_COUNT → Int) (i : Fin TIMER_COUNT) :
    ageLoop e l su i = if i ∈ l ∧ 0 < su i then subI32 (su i) e else su i := by
  induction l generalizing su with
  | nil => simp [ageLoop]
  | cons a t ih =>
    rw [List.nodup_cons] at hnd
    unfold ageLoop
    split
    · next hpos =>
      rw [ih hnd.2]
      by_cases hia : i = a
      · subst hia
        simp [hnd.1, hpos]
      · simp [Function.update_noteq hia, hia]
    · next hpos =>
      rw [ih hnd.2]
      by_cases hia : i = a
      · subst hia
        have : ¬ 0 < su i := hpos
        simp [hnd.1, this]
      · simp [hia]

theorem dispatchEvents_of_bound {H : Type} (s : TimerMultiplexer H) (now : Nat)
    (hb : HandlersBound s) :
    (dispatchEvents s now).aborted = false ∧
    (dispatchEvents s now).mux.lastSymCnt = now ∧
    (dispatchEvents s now).mux.syms_until
      = ageLoop (castI32 (sub32 now s.lastSymCnt)) timerIds s.syms_until := by
  have hloop := (dispatchLoop_bound s (castI32 (sub32 now s.lastSymCnt)) hb timerIds).1
  refine ⟨by rw [dispatchEvents_aborted]; exact hloop, ?_, ?_⟩
  · unfold dispatchEvents
    simp only [hloop]
    rfl
  · rw [dispatchEvents_syms_until, hloop]
    rfl

/-- A `timerInterrupt()` at `N`, at or after the reference point `L`, on a
multiplexer whose earliest deadline still ahead of `N` is `Dmin ≥ N + 2`. -/
theorem timerInterrupt_earliest_pending {H : Type} (s : TimerMultiplexer H) (N Dmin : Nat)
    (k : Fin TIMER_COUNT) (hb : HandlersBound s) (hr : InRange s)
    (hL : s.lastSymCnt ≤ N) (hgap : N + 2 ≤ Dmin) (hD : Dmin < 4294967296)
    (hk : s.syms_until k = (Dmin : Int) - (s.lastSymCnt : Int))
    (hmin : ∀ j, (N : Int) - (s.lastSymCnt : Int) < s.syms_until j →
      (Dmin : Int) - (s.lastSymCnt : Int) ≤ s.syms_until j) :
    (timerInterrupt s N).writes = [Dmin] ∧ (timerInterrupt s N).aborted = false := by
  obtain ⟨hab, hlast, hsu⟩ := dispatchEvents_of_bound s N hb
  have hkr := hr k
  have he : castI32 (sub32 N s.lastSymCnt) = (N : Int) - (s.lastSymCnt : Int) := by
    rw [sub32_of_le N s.lastSymCnt hL (by omega), castI32_of_lt _ (by omega)]
    omega
  have hsu' : ∀ j, (dispatchEvents s N).mux.syms_until j
      = if 0 < s.syms_until j then s.syms_until j - ((N : Int) - (s.lastSymCnt : Int))
        else s.syms_until j := by
    intro j
    rw [hsu, ageLoop_apply _ _ timerIds_nodup, he]
    have hjr := hr j
    by_cases hj : 0 < s.syms_until j
    · simp only [mem_timerIds, hj, and_self, if_true]
      unfold subI32
      exact wrapI32_of_range _ (by omega) (by omega)
    · simp [hj]
  have hsched := scheduleTimer_of_min (dispatchEvents s N).mux N N (Dmin - N)
    (by
      intro j
      rw [hsu' j]
      have hjr := hr j
      split <;> omega)
    (by omega)
    ⟨k, by
      rw [hsu' k]
      have : 0 < s.syms_until k := by omega
      rw [if_pos this]
      omega⟩
    (by
      intro j hj
      rw [hsu' j] at hj ⊢
      by_cases hpos : 0 < s.syms_until j
      · rw [if_pos hpos] at hj ⊢
        have := hmin j (by omega)
        omega
      · rw [if_neg hpos] at hj
        exact absurd hj hpos)
    (by rw [hlast]; omega) (by omega)
  have hmax : max ((dispatchEvents s N).mux.lastSymCnt + (Dmin - N)) (N + 2) = Dmin := by
    rw [hlast]; omega
  rw [hmax] at hsched
  unfold timerInterrupt _timerInterrupt
  simp only [hab, hsched]
  refine ⟨by simp, ?_⟩
  simp
  omega

/-- Effect of the starting loop on distinct indices when every given deadline
is at or after the reference point. -/
theorem startList_spec {H : Type} (D : Fin TIMER_COUNT → Option Nat) (h : Fin TIMER_COUNT → H)
    (l : List (Fin TIMER_COUNT)) (hnd : l.Nodup) (s : TimerMultiplexer H)
    (hD : ∀ i d, D i = some d → s.lastSymCnt ≤ d) :
    ∃ s', startList D h l s = some s' ∧ s'.lastSymCnt = s.lastSymCnt ∧
      (∀ i, s'.syms_until i = match D i with
        | some d => if i ∈ l then castI32 (sub32 d s.lastSymCnt) else s.syms_until i
        | none => s.syms_until i) ∧
      (∀ i, s'.handlers i = match D i with
        | some _ => if i ∈ l then some (h i) else s.handlers i
        | none => s.handlers i) := by
  induction l generalizing s with
  | nil =>
    refine ⟨s, rfl, rfl, ?_, ?_⟩ <;> intro i <;> cases D i <;> simp
  | cons a t ih =>
    rw [List.nodup_cons] at hnd
    unfold startList
    cases hDa : D a with
    | none =>
      obtain ⟨s', e1, e2, e3, e4⟩ := ih hnd.2 s hD
      refine ⟨s', e1, e2, ?_, ?_⟩
      · intro i
        rw [e3 i]
        cases hDi : D i with
        | none => rfl
        | some d =>
          have hia : i ≠ a := fun hEq => by rw [hEq, hDa] at hDi; cases hDi
          simp [hia]
      · intro i
        rw [e4 i]
        cases hDi : D i with
        | none => rfl
        | some d =>
          have hia : i ≠ a := fun hEq => by rw [hEq, hDa] at hDi; cases hDi
          simp [hia]
    | some d =>
      have hacc : ¬ d < s.lastSymCnt := by have := hD a d hDa; omega
      simp only [startTimer_accept s a d (some (h a)) hacc, Option.some_bind]
      obtain ⟨s', e1, e2, e3, e4⟩ := ih hnd.2
        { s with
          syms_until := Function.update s.syms_until a (castI32 (sub32 d s.lastSymCnt))
          handlers := Function.update s.handlers a (some (h a)) }
        (fun i d hd => hD i d hd)
      refine ⟨s', e1, by rw [e2], ?_, ?_⟩
      · intro i
        rw [e3 i]
        by_cases hia : i = a
        · subst hia
          simp [hDa, hnd.1]
        · cases hDi : D i <;> simp [hia, Function.update_noteq hia]
      · intro i
        rw [e4 i]
        by_cases hia : i = a
        · subst hia
          simp [hDa, hnd.1]
        · cases hDi : D i <;> simp [hia, Function.update_noteq hia]

/-- C9: after `initialize()` at `L` and `startTimer` for a set of timers with
deadlines `D i > L`, all less than `2^31` symbols ahead of `L` and below `2^32`,
the `timerInterrupt()` at `now = N ≥ L` programs the physical deadline to the
smallest deadline still pending (`> N`), whenever it is at least `N + 2`; the
final assertion holds. -/
theorem C9_interrupt_programs_earliest_pending {H : Type} (garbage L N : Nat)
    (D : Fin TIMER_COUNT → Option Nat) (h : Fin TIMER_COUNT → H) (Dmin : Nat)
    (k : Fin TIMER_COUNT)
    (hD : ∀ i d, D i = some d → L < d ∧ d < 4294967296 ∧ d - L < 2147483648)
    (hN : L ≤ N) (hk : D k = some Dmin) (hmin : ∀ i d, D i = some d → N < d → Dmin ≤ d)
    (hgap : N + 2 ≤ Dmin) :
    ∃ s, startAll garbage L D h = some s ∧
      (timerInterrupt s N).writes = [Dmin] ∧ (timerInterrupt s N).aborted = false := by
  obtain ⟨s, e1, e2, e3, e4⟩ := startList_spec D h timerIds timerIds_nodup
    ( _initialize (TimerMultiplexer.construct H garbage) L)
    (fun i d hd => le_of_lt (hD i d hd).1)
  have hlast : s.lastSymCnt = L := by rw [e2]; rfl
  have hsome : ∀ i d, D i = some d → s.syms_until i = (d : Int) - (L : Int) := by
    intro i d hDi
    obtain ⟨a1, a2, a3⟩ := hD i d hDi
    have e := e3 i
    rw [hDi] at e
    simp only [mem_timerIds, if_true] at e
    rw [e]
    show castI32 (sub32 d L) = (d : Int) - (L : Int)
    rw [sub32_of_le d L (le_of_lt a1) a2, castI32_of_lt _ a3]
    omega
  have hnone : ∀ i, D i = none → s.syms_until i = -1 := by
    intro i hDi
    have e := e3 i
    rw [hDi] at e
    exact e
  refine ⟨s, e1, ?_⟩
  apply timerInterrupt_earliest_pending s N Dmin k
  · intro i hi
    rw [e4 i]
    cases hDi : D i with
    | none => rw [hnone i hDi] at hi; omega
    | some d => simp [mem_timerIds]
  · intro i
    cases hDi : D i with
    | none => rw [hnone i hDi]; omega
    | some d =>
      obtain ⟨a1, a2, a3⟩ := hD i d hDi
      rw [hsome i d hDi]
      omega
  · rw [hlast]; exact hN
  · exact hgap
  · exact (hD k Dmin hk).2.1
  · rw [hsome k Dmin hk, hlast]
  · intro j hj
    rw [hlast] at hj ⊢
    cases hDj : D j with
    | none => rw [hnone j hDj] at hj; omega
    | some d =>
      rw [hsome j d hDj] at hj ⊢
      have := hmin j d hDj (by omega)
      omega

/-- The scenario of the specification: reference point 100, slot timer at 150,
CSMA timer at 120, interrupt at 121: the compare register is set to 150. -/
theorem C9_interrupt_programs_earliest_pending_witness :
    ∃ s, startAll 0 100 scenarioDeadlines (fun i => i.val) = some s ∧
      (timerInterrupt s 121).writes = [150] ∧ (timerInterrupt s 121).aborted = false :=
  C9_interrupt_programs_earliest_pending 0 100 121 scenarioDeadlines (fun i => i.val) 150
    NEXT_SLOT
    (by
      intro i d hd
      unfold scenarioDeadlines at hd
      split at hd
      · cases hd; decide
      · split at hd
        · cases hd; decide
        · cases hd)
    (by decide) (by decide)
    (by
      intro i d hd hlt
      unfold scenarioDeadlines at hd
      split at hd
      · cases hd; exact le_refl _
      · split at hd
        · cases hd; omega
        · cases hd)
    (by decide)

/-! ## Frame of _startTimer -/

/-- C10 (amended): an accepted `startTimer(E, D, h)` leaves `syms_until[E]` equal
to `D - lastSymCnt` when that difference is below `2^31`, and to
`D - lastSymCnt - 2^32` (its reading as an `int32_t`) otherwise; it binds
`handlers[E] = h` and leaves `lastSymCnt` and every other timer's remaining value
and handler unchanged. -/
theorem C10_startTimer_effect {H : Type} (s : TimerMultiplexer H) (E : Fin TIMER_COUNT)
    (D : Nat) (h : Option H) (hacc : ¬ D < s.lastSymCnt) (hD : D < 4294967296) :
    ∃ s', _startTimer s E D h = some s' ∧
      (D - s.lastSymCnt < 2147483648 →
        s'.syms_until E = ((D - s.lastSymCnt : Nat) : Int)) ∧
      (2147483648 ≤ D - s.lastSymCnt →
        s'.syms_until E = ((D - s.lastSymCnt : Nat) : Int) - 4294967296) ∧
      s'.handlers E = h ∧ s'.lastSymCnt = s.lastSymCnt ∧
      ∀ j, j ≠ E → s'.syms_until j = s.syms_until j ∧ s'.handlers j = s.handlers j := by
  refine ⟨_, startTimer_accept s E D h hacc, ?_, ?_, ?_, rfl, ?_⟩
  · intro hlt
    simp only [Function.update_same]
    rw [sub32_of_le D s.lastSymCnt (by omega) hD, castI32_of_lt _ hlt]
  · intro hge
    simp only [Function.update_same]
    rw [sub32_of_le D s.lastSymCnt (by omega) hD]
    unfold castI32
    have hmod : (D - s.lastSymCnt) % 4294967296 = D - s.lastSymCnt :=
      Nat.mod_eq_of_lt (by omega)
    rw [hmod, if_neg (by omega)]
  · simp only [Function.update_same]
  · intro j hj
    simp only [Function.update_noteq hj, and_self]

/-- Reference point 100, slot timer started for 150. -/
theorem C10_startTimer_effect_witness :
    ∃ s', _startTimer (muxInitializedAt 100) NEXT_SLOT 150 (some 9) = some s' ∧
      (150 - (muxInitializedAt 100).lastSymCnt < 2147483648 →
        s'.syms_until NEXT_SLOT = ((150 - (muxInitializedAt 100).lastSymCnt : Nat) : Int)) ∧
      (2147483648 ≤ 150 - (muxInitializedAt 100).lastSymCnt →
        s'.syms_until NEXT_SLOT
          = ((150 - (muxInitializedAt 100).lastSymCnt : Nat) : Int) - 4294967296) ∧
      s'.handlers NEXT_SLOT = some 9 ∧ s'.lastSymCnt = (muxInitializedAt 100).lastSymCnt ∧
      ∀ j, j ≠ NEXT_SLOT → s'.syms_until j = (muxInitializedAt 100).syms_until j ∧
        s'.handlers j = (muxInitializedAt 100).handlers j :=
  C10_startTimer_effect (muxInitializedAt 100) NEXT_SLOT 150 (some 9) (by decide) (by decide)

/-- C10 (as stated, refuted): with `lastSymCnt = 0` the deadline `2^31` passes the
check of `startTimer`, and `syms_until[CSMA_TIMER]` becomes `-2^31`, not the
integer `2^31 - 0`. -/
theorem C10_counterexample_far_deadline :
    (_startTimer (muxInitializedAt 0) CSMA_TIMER 2147483648 (some 9)).isSome = true ∧
    (_startTimer (muxInitializedAt 0) CSMA_TIMER 2147483648 (some 9)).map
      (fun s' => s'.syms_until CSMA_TIMER) = some (-2147483648) ∧
    (_startTimer (muxInitializedAt 0) CSMA_TIMER 2147483648 (some 9)).map
      (fun s' => decide (s'.syms_until CSMA_TIMER
        = (2147483648 : Int) - ((muxInitializedAt 0).lastSymCnt : Int))) = some false := by
  decide

/-! ## Lateness -/

theorem castI32_range (u : Nat) : -2147483648 ≤ castI32 u ∧ castI32 u < 2147483648 := by
  unfold castI32
  split <;> omega

/-- A positive elapsed value is the unsigned difference of the counters itself. -/
theorem castI32_sub32_of_pos (a b : Nat) (h : 0 < castI32 (sub32 a b)) :
    castI32 (sub32 a b) = ((sub32 a b : Nat) : Int) := by
  have hlt : sub32 a b < 4294967296 := by unfold sub32; omega
  unfold castI32 at h ⊢
  have hmod : sub32 a b % 4294967296 = sub32 a b := Nat.mod_eq_of_lt hlt
  rw [hmod] at h ⊢
  split
  · rfl
  · next hge => rw [if_neg hge] at h; omega

/-- C11: every handler invocation of the dispatch phase receives
`lateness = elapsed - syms_until[i]`, where `elapsed` is the signed value the
code computes and also the unsigned difference `(now - lastSymCnt) mod 2^32`;
the lateness is never negative and is below `elapsed`. -/
theorem C11_lateness_nonneg {H : Type} (s : TimerMultiplexer H) (now : Nat) (c : Call H)
    (hc : c ∈ (dispatchEvents s now).calls) :
    c.lateness = castI32 (sub32 now s.lastSymCnt) - s.syms_until c.timer ∧
    c.lateness = ((sub32 now s.lastSymCnt : Nat) : Int) - s.syms_until c.timer ∧
    0 ≤ c.lateness ∧ c.lateness < castI32 (sub32 now s.lastSymCnt) := by
  rw [dispatchEvents_calls] at hc
  obtain ⟨_, hpos, hle, _, hl⟩ := dispatchLoop_mem s _ timerIds c hc
  have hr := castI32_range (sub32 now s.lastSymCnt)
  have he := castI32_sub32_of_pos now s.lastSymCnt (by omega)
  have hl' : c.lateness = castI32 (sub32 now s.lastSymCnt) - s.syms_until c.timer := by
    rw [hl]
    unfold subI32
    exact wrapI32_of_range _ (by omega) (by omega)
  refine ⟨hl', ?_, ?_, ?_⟩
  · rw [hl', he]
  · omega
  · omega

/-- Reference point 100, dispatch at 150: the pre-slot timer, due at 140, is
called with lateness 10. -/
theorem C11_lateness_nonneg_witness :
    (⟨NEXT_PRE_SLOT, 0, 10⟩ : Call Nat) ∈ (dispatchEvents muxAllDue 150).calls ∧
    (10 : Int) = castI32 (sub32 150 muxAllDue.lastSymCnt) - muxAllDue.syms_until NEXT_PRE_SLOT ∧
    (0 : Int) ≤ 10 :=
  ⟨by decide,
   (C11_lateness_nonneg muxAllDue 150 ⟨NEXT_PRE_SLOT, 0, 10⟩ (by decide)).1,
   (C11_lateness_nonneg muxAllDue 150 ⟨NEXT_PRE_SLOT, 0, 10⟩ (by decide)).2.2.1⟩

/-! ## stopTimer -/

/-- C12: `stopTimer(id)` changes nothing but `syms_until[id]`, which becomes -1
(`lastSymCnt`, all handlers and every other remaining value are unchanged), and
applying it twice yields the same state as applying it once. -/
theorem C12_stopTimer_framed_idempotent {H : Type} (s : TimerMultiplexer H)
    (E : Fin TIMER_COUNT) :
    (∀ j, (_stopTimer s E).syms_until j = if j = E then -1 else s.syms_until j) ∧
    (_stopTimer s E).lastSymCnt = s.lastSymCnt ∧
    (_stopTimer s E).handlers = s.handlers ∧
    _stopTimer (_stopTimer s E) E = _stopTimer s E := by
  refine ⟨?_, rfl, rfl, ?_⟩
  · intro j
    unfold _stopTimer
    by_cases hj : j = E
    · subst hj; simp
    · simp [hj]
  · unfold _stopTimer
    simp

/-! ## Runs of calls: what a dispatch leaves behind -/

theorem ageLoop_of_nonpos (e : Int) (su : Fin TIMER_COUNT → Int) (i : Fin TIMER_COUNT)
    (h : su i ≤ 0) : ageLoop e timerIds su i = su i := by
  rw [ageLoop_apply e timerIds timerIds_nodup, if_neg (fun hp => by omega)]

theorem pos_of_ageLoop_pos (e : Int) (su : Fin TIMER_COUNT → Int) (i : Fin TIMER_COUNT)
    (h : 0 < ageLoop e timerIds su i) : 0 < su i := by
  by_contra hn
  rw [ageLoop_of_nonpos e su i (by omega)] at h
  exact hn h

theorem dispatchEvents_mux {H : Type} (s : TimerMultiplexer H) (now : Nat) :
    (dispatchEvents s now).mux
      = if (dispatchLoop s (castI32 (sub32 now s.lastSymCnt)) timerIds).2 then s
        else { s with
          syms_until := ageLoop (castI32 (sub32 now s.lastSymCnt)) timerIds s.syms_until
          lastSymCnt := now } := by
  unfold dispatchEvents
  simp only
  split <;> rfl

/-- A dispatch never touches the handlers, leaves the timers that are not
pending as they are, and makes no timer pending. -/
theorem dispatchEvents_frame {H : Type} (s : TimerMultiplexer H) (now : Nat) :
    (dispatchEvents s now).mux.handlers = s.handlers ∧
    (∀ j, s.syms_until j ≤ 0 → (dispatchEvents s now).mux.syms_until j = s.syms_until j) ∧
    (∀ j, 0 < (dispatchEvents s now).mux.syms_until j → 0 < s.syms_until j) := by
  rw [dispatchEvents_mux]
  split
  · exact ⟨rfl, fun _ _ => rfl, fun _ h => h⟩
  · exact ⟨rfl, fun j hj => ageLoop_of_nonpos _ _ j hj, fun j hj => pos_of_ageLoop_pos _ _ j hj⟩

theorem timerInterrupt_mux {H : Type} (s : TimerMultiplexer H) (c1 c2 c3 : Nat) :
    (_timerInterrupt s c1 c2 c3).mux = (dispatchEvents s c1).mux := by
  unfold _timerInterrupt
  simp only
  split <;> rfl

/-- A timer that is not pending is not called by the next call on the
multiplexer and stays not pending, unless that call is its `startTimer`. -/
theorem step_of_inactive {H : Type} (s : TimerMultiplexer H) (i : Fin TIMER_COUNT)
    (op : Op H) (hi : s.syms_until i ≤ 0) (hop : op.startsTimer i = false) :
    (∀ c ∈ (step s op).calls, c.timer ≠ i) ∧
    (∀ s', (step s op).mux = some s' → s'.syms_until i ≤ 0) := by
  cases op with
  | init now =>
    refine ⟨by simp [step], ?_⟩
    intro s' hs'
    simp only [step, Option.some.injEq] at hs'
    subst hs'
    exact hi
  | start E D h =>
    have hE : E ≠ i := by simpa [Op.startsTimer] using hop
    refine ⟨by simp [step], ?_⟩
    intro s' hs'
    simp only [step] at hs'
    unfold _startTimer at hs'
    split at hs'
    · cases hs'
    · simp only [Option.some.injEq] at hs'
      subst hs'
      simp only [Function.update_noteq (Ne.symm hE)]
      exact hi
  | stop E =>
    refine ⟨by simp [step], ?_⟩
    intro s' hs'
    simp only [step, Option.some.injEq] at hs'
    subst hs'
    unfold _stopTimer
    by_cases hE : i = E
    · subst hE; simp
    · simp only [Function.update_noteq hE]; exact hi
  | interrupt c1 c2 c3 =>
    constructor
    · intro c hc hci
      simp only [step, timerInterrupt_calls, dispatchEvents_calls] at hc
      have := (dispatchLoop_mem s _ timerIds c hc).2.1
      rw [hci] at this
      omega
    · intro s' hs'
      simp only [step, timerInterrupt_mux] at hs'
      split at hs'
      · cases hs'
      · simp only [Option.some.injEq] at hs'
        subst hs'
        rw [(dispatchEvents_frame s c1).2.1 i hi]
        exact hi

/-- No run of calls invokes a timer that is not pending at its start, as long
as the run holds no `startTimer` for it. -/
theorem run_of_inactive {H : Type} (i : Fin TIMER_COUNT) (ops : List (Op H))
    (hops : ∀ op ∈ ops, op.startsTimer i = false) (s : TimerMultiplexer H)
    (hi : s.syms_until i ≤ 0) : ∀ c ∈ (run s ops).calls, c.timer ≠ i := by
  induction ops generalizing s with
  | nil => simp [run]
  | cons op rest ih =>
    obtain ⟨h1, h2⟩ := step_of_inactive s i op hi (hops op (List.mem_cons_self _ _))
    unfold run
    split
    · exact h1
    · next s' hs' =>
      intro c hc
      simp only [List.mem_append] at hc
      rcases hc with hc | hc
      · exact h1 c hc
      · exact ih (fun o ho => hops o (List.mem_cons_of_mem _ ho)) s' (h2 s' hs') c hc

/-- Every call on the multiplexer keeps a handler bound to every pending
timer, provided `startTimer` is given a handler. -/
theorem step_handlersBound {H : Type} (s : TimerMultiplexer H) (op : Op H)
    (hb : HandlersBound s) (hop : op.handlerGiven = true) :
    ∀ s', (step s op).mux = some s' → HandlersBound s' := by
  intro s' hs'
  cases op with
  | init now =>
    simp only [step, Option.some.injEq] at hs'
    subst hs'
    exact hb
  | start E D h =>
    simp only [step] at hs'
    unfold _startTimer at hs'
    split at hs'
    · cases hs'
    · simp only [Option.some.injEq] at hs'
      subst hs'
      intro j hj
      by_cases hjE : j = E
      · subst hjE
        simp only [Function.update_same]
        cases h with
        | none => simp [Op.handlerGiven] at hop
        | some h => simp
      · simp only [Function.update_noteq hjE] at hj ⊢
        exact hb j hj
  | stop E =>
    simp only [step, Option.some.injEq] at hs'
    subst hs'
    intro j hj
    unfold _stopTimer at hj ⊢
    by_cases hjE : j = E
    · subst hjE; simp at hj
    · simp only [Function.update_noteq hjE] at hj
      exact hb j hj
  | interrupt c1 c2 c3 =>
    simp only [step, timerInterrupt_mux] at hs'
    split at hs'
    · cases hs'
    · simp only [Option.some.injEq] at hs'
      subst hs'
      intro j hj
      obtain ⟨f1, _, f3⟩ := dispatchEvents_frame s c1
      rw [f1]
      exact hb j (f3 j hj)

theorem run_handlersBound {H : Type} (ops : List (Op H))
    (hops : ∀ op ∈ ops, op.handlerGiven = true) (s : TimerMultiplexer H)
    (hb : HandlersBound s) : ∀ s', (run s ops).mux = some s' → HandlersBound s' := by
  induction ops generalizing s with
  | nil =>
    intro s' hs'
    simp only [run, Option.some.injEq] at hs'
    subst hs'
    exact hb
  | cons op rest ih =>
    intro s' hs'
    unfold run at hs'
    split at hs'
    · next hnone => rw [hnone] at hs'; cases hs'
    · next s1 hs1 =>
      exact ih (fun o ho => hops o (List.mem_cons_of_mem _ ho)) s1
        (step_handlersBound s op hb (hops op (List.mem_cons_self _ _)) s1 hs1) s' hs'

/-! ## Runs from two multiplexers that differ in handlers of idle timers -/

theorem dispatchLoop_agree {H : Type} (s t : TimerMultiplexer H) (e : Int)
    (h1 : s.syms_until = t.syms_until)
    (h2 : ∀ j, 0 < s.syms_until j → s.handlers j = t.handlers j)
    (l : List (Fin TIMER_COUNT)) : dispatchLoop s e l = dispatchLoop t e l := by
  induction l with
  | nil => simp [dispatchLoop]
  | cons i rest ih =>
    unfold dispatchLoop
    rw [ih, ← h1]
    split
    · next hg => rw [h2 i hg.1]
    · rfl

theorem scheduleTimer_congr {H : Type} (s t : TimerMultiplexer H) (cur now : Nat)
    (h0 : s.lastSymCnt = t.lastSymCnt) (h1 : s.syms_until = t.syms_until) :
    _scheduleTimer s cur now = _scheduleTimer t cur now := by
  unfold _scheduleTimer
  rw [h0, h1]

theorem dispatchEvents_agree {H : Type} (s t : TimerMultiplexer H) (now : Nat)
    (h : Agree s t) :
    (dispatchEvents s now).calls = (dispatchEvents t now).calls ∧
    (dispatchEvents s now).aborted = (dispatchEvents t now).aborted ∧
    Agree (dispatchEvents s now).mux (dispatchEvents t now).mux := by
  obtain ⟨h0, h1, h2⟩ := h
  have hl := dispatchLoop_agree s t (castI32 (sub32 now s.lastSymCnt)) h1 h2 timerIds
  refine ⟨?_, ?_, ?_⟩
  · rw [dispatchEvents_calls, dispatchEvents_calls, ← h0, hl]
  · rw [dispatchEvents_aborted, dispatchEvents_aborted, ← h0, hl]
  · rw [dispatchEvents_mux, dispatchEvents_mux, ← h0, ← hl, ← h1]
    split
    · exact ⟨h0, h1, h2⟩
    · exact ⟨rfl, rfl, fun j hj => h2 j (pos_of_ageLoop_pos _ _ j hj)⟩

/-- One call on two such multiplexers makes the same handler calls and the
same writes to `TIMER`, and ends the program on both or on neither. -/
theorem step_agree {H : Type} (s t : TimerMultiplexer H) (op : Op H) (h : Agree s t) :
    (step s op).calls = (step t op).calls ∧ (step s op).writes = (step t op).writes ∧
    (((step s op).mux = none ∧ (step t op).mux = none) ∨
      ∃ s' t', (step s op).mux = some s' ∧ (step t op).mux = some t' ∧ Agree s' t') := by
  cases op with
  | init now =>
    refine ⟨rfl, rfl, Or.inr ⟨_, _, rfl, rfl, ?_⟩⟩
    exact ⟨rfl, h.2.1, h.2.2⟩
  | start E D hd =>
    refine ⟨rfl, rfl, ?_⟩
    simp only [step]
    unfold _startTimer
    rw [← h.1]
    split
    · exact Or.inl ⟨rfl, rfl⟩
    · refine Or.inr ⟨_, _, rfl, rfl, rfl, ?_, ?_⟩
      · simp only [h.2.1]
      · intro j hj
        by_cases hjE : j = E
        · subst hjE; simp
        · simp only [Function.update_noteq hjE] at hj ⊢
          exact h.2.2 j hj
  | stop E =>
    refine ⟨rfl, rfl, Or.inr ⟨_, _, rfl, rfl, h.1, ?_, ?_⟩⟩
    · unfold _stopTimer; simp only [h.2.1]
    · intro j hj
      unfold _stopTimer at hj ⊢
      by_cases hjE : j = E
      · subst hjE; simp at hj
      · simp only [Function.update_noteq hjE] at hj
        exact h.2.2 j hj
  | interrupt c1 c2 c3 =>
    obtain ⟨d1, d2, d3⟩ := dispatchEvents_agree s t c1 h
    have hsched := scheduleTimer_congr (dispatchEvents s c1).mux (dispatchEvents t c1).mux
      c2 c3 d3.1 d3.2.1
    have hw : (_timerInterrupt s c1 c2 c3).writes = (_timerInterrupt t c1 c2 c3).writes := by
      unfold _timerInterrupt
      simp only [← d2, hsched]
      split <;> rfl
    have ha : (_timerInterrupt s c1 c2 c3).aborted = (_timerInterrupt t c1 c2 c3).aborted := by
      unfold _timerInterrupt
      simp only [← d2, hsched]
      split <;> rfl
    refine ⟨?_, hw, ?_⟩
    · simp only [step, timerInterrupt_calls, d1]
    · simp only [step, timerInterrupt_mux, ha]
      split
      · exact Or.inl ⟨rfl, rfl⟩
      · exact Or.inr ⟨_, _, rfl, rfl, d3⟩

theorem run_agree {H : Type} (ops : List (Op H)) (s t : TimerMultiplexer H) (h : Agree s t) :
    (run s ops).calls = (run t ops).calls ∧ (run s ops).writes = (run t ops).writes := by
  induction ops generalizing s t with
  | nil => exact ⟨rfl, rfl⟩
  | cons op rest ih =>
    obtain ⟨e1, e2, e3⟩ := step_agree s t op h
    rcases e3 with ⟨n1, n2⟩ | ⟨s', t', m1, m2, hst⟩
    · unfold run
      simp only [n1, n2]
      exact ⟨e1, e2⟩
    · obtain ⟨i1, i2⟩ := ih s' t' hst
      unfold run
      simp only [m1, m2, e1, e2, i1, i2, and_self]

theorem stopTimer_agree_unstarted {H : Type} (s : TimerMultiplexer H) (E : Fin TIMER_COUNT) :
    Agree (_stopTimer s E) (unstarted s E) := by
  refine ⟨rfl, rfl, ?_⟩
  intro j hj
  unfold _stopTimer at hj
  unfold _stopTimer unstarted
  by_cases hjE : j = E
  · subst hjE; simp at hj
  · simp only [Function.update_noteq hjE]

/-! ## Cancellation, single firing and the handler-binding invariant -/

/-- C13: after `stopTimer(id)`, in any run of calls without a `startTimer(id)`
that ends with a `timerInterrupt()`, the handler of `id` is never invoked, and
the handler calls and the values written to the compare register are those of
the same run from the state in which `id` was never started; the state after
`stopTimer(id)` does not depend on the previous remaining value of `id`. -/
theorem C13_cancellation_immediate {H : Type} (s : TimerMultiplexer H) (E : Fin TIMER_COUNT)
    (ops : List (Op H)) (now : Nat) (v : Int)
    (hops : ∀ op ∈ ops, op.startsTimer E = false) :
    (run (_stopTimer s E) (ops ++ [Op.interrupt now now now])).calls.filter
      (fun c => decide (c.timer = E)) = [] ∧
    (run (_stopTimer s E) (ops ++ [Op.interrupt now now now])).writes
      = (run (unstarted s E) (ops ++ [Op.interrupt now now now])).writes ∧
    (run (_stopTimer s E) (ops ++ [Op.interrupt now now now])).calls
      = (run (unstarted s E) (ops ++ [Op.interrupt now now now])).calls ∧
    _stopTimer { s with syms_until := Function.update s.syms_until E v } E = _stopTimer s E := by
  have hall : ∀ op ∈ ops ++ [Op.interrupt now now now], op.startsTimer E = false := by
    intro op hop
    rcases List.mem_append.mp hop with h | h
    · exact hops op h
    · rw [List.mem_singleton] at h
      subst h
      rfl
  have hE : (_stopTimer s E).syms_until E ≤ 0 := by
    unfold _stopTimer
    simp
  have hno := run_of_inactive E _ hall (_stopTimer s E) hE
  obtain ⟨a1, a2⟩ := run_agree (ops ++ [Op.interrupt now now now]) _ _
    (stopTimer_agree_unstarted s E)
  refine ⟨?_, a2, a1, ?_⟩
  · rw [List.filter_eq_nil_iff]
    intro c hc
    simpa using hno c hc
  · unfold _stopTimer
    simp

/-- Reference point 100, CSMA timer pending for 120 and slot timer for 150:
after `stopTimer(CSMA_TIMER)`, the interrupts at 110 and 121 call nothing and
program 150 both times. -/
theorem C13_cancellation_immediate_witness :
    (run (_stopTimer muxScenario CSMA_TIMER)
        ([Op.interrupt 110 110 110] ++ [Op.interrupt 121 121 121])).calls.filter
      (fun c => decide (c.timer = CSMA_TIMER)) = [] ∧
    (run (_stopTimer muxScenario CSMA_TIMER)
        ([Op.interrupt 110 110 110] ++ [Op.interrupt 121 121 121])).writes
      = (run (unstarted muxScenario CSMA_TIMER)
        ([Op.interrupt 110 110 110] ++ [Op.interrupt 121 121 121])).writes ∧
    (run (_stopTimer muxScenario CSMA_TIMER)
        ([Op.interrupt 110 110 110] ++ [Op.interrupt 121 121 121])).writes = [150, 150] :=
  ⟨(C13_cancellation_immediate muxScenario CSMA_TIMER [Op.interrupt 110 110 110] 121 0
      (by decide)).1,
   (C13_cancellation_immediate muxScenario CSMA_TIMER [Op.interrupt 110 110 110] 121 0
      (by decide)).2.1,
   by decide⟩

/-- C15: when the elapsed symbols are below `2^31`, the dispatch phase runs to
its end, every timer with `syms_until[i] = r > elapsed` is left with
`r - elapsed`, `lastSymCnt` becomes `now`, so that `lastSymCnt + syms_until[i]`
is unchanged modulo `2^32`; timers with `syms_until[j] ≤ 0` are untouched. -/
theorem C15_pending_deadline_preserved {H : Type} (s : TimerMultiplexer H) (now : Nat)
    (i : Fin TIMER_COUNT) (hb : HandlersBound s) (hr : InRange s)
    (he : sub32 now s.lastSymCnt < 2147483648)
    (hi : ((sub32 now s.lastSymCnt : Nat) : Int) < s.syms_until i) :
    (dispatchEvents s now).aborted = false ∧
    (dispatchEvents s now).mux.syms_until i
      = s.syms_until i - ((sub32 now s.lastSymCnt : Nat) : Int) ∧
    (dispatchEvents s now).mux.lastSymCnt = now ∧
    (((dispatchEvents s now).mux.lastSymCnt : Int) + (dispatchEvents s now).mux.syms_until i)
        % 4294967296 = ((s.lastSymCnt : Int) + s.syms_until i) % 4294967296 ∧
    (∀ j, s.syms_until j ≤ 0 → (dispatchEvents s now).mux.syms_until j = s.syms_until j) := by
  obtain ⟨hab, hlast, hsu⟩ := dispatchEvents_of_bound s now hb
  have hir := hr i
  have hsui : (dispatchEvents s now).mux.syms_until i
      = s.syms_until i - ((sub32 now s.lastSymCnt : Nat) : Int) := by
    rw [hsu, ageLoop_apply _ _ timerIds_nodup, castI32_of_lt _ he,
      if_pos ⟨mem_timerIds i, by omega⟩]
    unfold subI32
    exact wrapI32_of_range _ (by omega) (by omega)
  refine ⟨hab, hsui, hlast, ?_, (dispatchEvents_frame s now).2.1⟩
  rw [hsui, hlast]
  unfold sub32
  omega

/-- Reference point 100, slot timer pending at 50 symbols, dispatch at 121:
29 symbols remain and the deadline is still 150. -/
theorem C15_pending_deadline_preserved_witness :
    (dispatchEvents muxScenario 121).mux.syms_until NEXT_SLOT
      = muxScenario.syms_until NEXT_SLOT - ((sub32 121 muxScenario.lastSymCnt : Nat) : Int) ∧
    (dispatchEvents muxScenario 121).mux.syms_until NEXT_SLOT = 29 :=
  ⟨(C15_pending_deadline_preserved muxScenario 121 NEXT_SLOT (by unfold HandlersBound; decide)
      (by unfold InRange; decide) (by decide) (by decide)).2.1,
   by decide⟩

/-- C16: every timer whose handler the dispatch phase invoked is left with
`syms_until = -lateness ≤ 0`, and no later run of calls without a `startTimer`
for that timer, whatever the clock values of its interrupts, invokes the
handler of that timer again. -/
theorem C16_fires_at_most_once {H : Type} (s : TimerMultiplexer H) (now : Nat) (c : Call H)
    (ops : List (Op H)) (hb : HandlersBound s) (hc : c ∈ (dispatchEvents s now).calls)
    (hops : ∀ op ∈ ops, op.startsTimer c.timer = false) :
    (dispatchEvents s now).mux.syms_until c.timer = - c.lateness ∧ - c.lateness ≤ 0 ∧
    (timerInterrupt s now).mux = (dispatchEvents s now).mux ∧
    (run (dispatchEvents s now).mux ops).calls.filter
      (fun c' => decide (c'.timer = c.timer)) = [] := by
  obtain ⟨_, _, hsu⟩ := dispatchEvents_of_bound s now hb
  have hc' := hc
  rw [dispatchEvents_calls] at hc'
  obtain ⟨_, hpos, hle, _, hl⟩ := dispatchLoop_mem s _ timerIds c hc'
  have her := castI32_range (sub32 now s.lastSymCnt)
  have hlat : c.lateness = castI32 (sub32 now s.lastSymCnt) - s.syms_until c.timer := by
    rw [hl]
    unfold subI32
    exact wrapI32_of_range _ (by omega) (by omega)
  have hleft : (dispatchEvents s now).mux.syms_until c.timer = - c.lateness := by
    rw [hsu, ageLoop_apply _ _ timerIds_nodup, if_pos ⟨mem_timerIds _, hpos⟩, hlat]
    unfold subI32
    rw [wrapI32_of_range _ (by omega) (by omega)]
    omega
  refine ⟨hleft, by omega, ?_, ?_⟩
  · unfold timerInterrupt
    exact timerInterrupt_mux s now now now
  · rw [List.filter_eq_nil_iff]
    intro c2 hc2
    have := run_of_inactive c.timer ops hops (dispatchEvents s now).mux (by omega) c2 hc2
    simpa using this

/-- All four timers fire at 150, the pre-slot timer 10 symbols late; the
interrupts at 151 and 4000000000 call nothing. -/
theorem C16_fires_at_most_once_witness :
    (dispatchEvents muxAllDue 150).mux.syms_until NEXT_PRE_SLOT = - 10 ∧
    (run (dispatchEvents muxAllDue 150).mux
        [Op.interrupt 151 151 151, Op.interrupt 4000000000 4000000000 4000000000]).calls.filter
      (fun c' => decide (c'.timer = NEXT_PRE_SLOT)) = [] :=
  ⟨(C16_fires_at_most_once muxAllDue 150 ⟨NEXT_PRE_SLOT, 0, 10⟩
      [Op.interrupt 151 151 151, Op.interrupt 4000000000 4000000000 4000000000]
      (by unfold HandlersBound; decide) (by decide) (by decide)).1,
   (C16_fires_at_most_once muxAllDue 150 ⟨NEXT_PRE_SLOT, 0, 10⟩
      [Op.interrupt 151 151 151, Op.interrupt 4000000000 4000000000 4000000000]
      (by unfold HandlersBound; decide) (by decide) (by decide)).2.2.2⟩

/-- C17: from the constructed state, after any sequence of `initialize`,
`startTimer` (given non-null handlers), `stopTimer` and `timerInterrupt` calls,
every pending timer has a handler bound, so the assertion
`handlers[i] != nullptr` of a dispatch from that state, at any clock value,
does not fail. -/
theorem C17_handlers_bound_invariant {H : Type} (garbage : Nat) (ops : List (Op H))
    (s : TimerMultiplexer H) (hops : ∀ op ∈ ops, op.handlerGiven = true)
    (hs : (run (TimerMultiplexer.construct H garbage) ops).mux = some s) :
    HandlersBound s ∧ ∀ now, (dispatchEvents s now).aborted = false := by
  have h0 : HandlersBound (TimerMultiplexer.construct H garbage) := by
    intro i hi
    simp [TimerMultiplexer.construct] at hi
  have hb := run_handlersBound ops hops _ h0 s hs
  exact ⟨hb, fun now => (dispatchEvents_of_bound s now hb).1⟩

/-- The run `opsScenario` ends in a state in which the invariant holds. -/
theorem C17_handlers_bound_invariant_witness :
    ∃ s, (run (TimerMultiplexer.construct Nat 0) opsScenario).mux = some s ∧
      HandlersBound s ∧ ∀ now, (dispatchEvents s now).aborted = false :=
  ⟨((run (TimerMultiplexer.construct Nat 0) opsScenario).mux).get (by decide),
   (Option.some_get _).symm,
   C17_handlers_bound_invariant 0 opsScenario _ (by decide) (Option.some_get _).symm⟩

/-! ## slotsForLoad -/

/-- C14: `slotsForLoad` is monotonic non-decreasing in the load, and
`slotsForLoad(0)` is the protocol floor. -/
theorem C14_slotsForLoad_monotone (minSlots maxSlots : Nat) (a b : ℚ) (hab : a ≤ b) :
    slotsForLoad minSlots maxSlots a ≤ slotsForLoad minSlots maxSlots b ∧
    slotsForLoad minSlots maxSlots 0 = minSlots := by
  constructor
  · unfold slotsForLoad
    exact max_le_max_left _ (min_le_min_left _ (Int.toNat_le_toNat (Int.ceil_mono hab)))
  · unfold slotsForLoad
    simp

/-- Floor 1 and maximum 7: a load of 3/2 needs no more slots than a load of 5/2. -/
theorem C14_slotsForLoad_monotone_witness :
    slotsForLoad 1 7 (3 / 2) ≤ slotsForLoad 1 7 (5 / 2) ∧ slotsForLoad 1 7 0 = 1 :=
  C14_slotsForLoad_monotone 1 7 (3 / 2) (5 / 2) (by norm_num)

end dsme
